import Mathlib

/-!
Shallow embedding of the cell content model of the `comfy-table` repository
(`src/cell.rs`): the `Cell` structure, its constructor and fluent mutators,
and the `ToCell` / `ToCells` conversion protocol.

Rust strings are modelled as `List Char`.  `Rust.split` mirrors
`str::split('\n')` (for `n` newline characters it yields `n + 1` pieces,
empty pieces included).  `Rust.join` mirrors `Vec::<String>::join("\n")`.
-/

namespace ComfyTable

/-- Modelled from the spec: `CellAlignment` lives in `src/style.rs`, which is
not part of the excerpt; the spec describes it as the enum {Left, Center,
Right}. -/
inductive CellAlignment : Type
  | Left
  | Center
  | Right
  deriving DecidableEq, Repr

/-- Modelled from the spec: colors come from the external crossterm crate;
the cell stores them opaquely, so a small enumeration of crossterm color
names suffices for the model. -/
inductive Color : Type
  | Black
  | Red
  | Green
  | Blue
  | White
  deriving DecidableEq, Repr

/-- Modelled from the spec: attributes come from the external crossterm
crate; a small enumeration of crossterm attribute names suffices for the
model. -/
inductive Attribute : Type
  | Bold
  | Italic
  | Underlined
  | Dim
  deriving DecidableEq, Repr

namespace Rust

/-- Embedding of Rust `str::split('\n')` collected into a `Vec<String>`:
split the character list at every newline, keeping empty pieces, so `n`
newline characters always yield `n + 1` pieces. -/
def split : List Char → List (List Char)
  | [] => [[]]
  | c :: rest =>
    if c = '\n' then [] :: split rest
    else
      match split rest with
      | [] => [[c]]
      | piece :: pieces => (c :: piece) :: pieces

/-- Embedding of Rust `Vec::<String>::join("\n")`. -/
def join (pieces : List (List Char)) : List Char :=
  match pieces with
  | [] => []
  | [piece] => piece
  | piece :: rest => piece ++ '\n' :: join rest

/-- `split` never returns the empty list. -/
theorem split_ne_nil (s : List Char) : split s ≠ [] := by
  cases s with
  | nil => simp [split]
  | cons c rest =>
    by_cases h : c = '\n'
    · simp [split, h]
    · simp only [split, if_neg h]
      cases split rest <;> simp

/-- `join` is a left inverse of `split`: the round-trip law at the level of
character lists. -/
theorem join_split (s : List Char) : join (split s) = s := by
  induction s with
  | nil => rfl
  | cons c rest ih =>
    have hne := split_ne_nil rest
    by_cases h : c = '\n'
    · subst h
      cases hsp : split rest with
      | nil => exact absurd hsp hne
      | cons piece pieces =>
        have hstep : split ('\n' :: rest) = [] :: piece :: pieces := by
          simp [split, hsp]
        rw [hstep]
        rw [hsp] at ih
        simpa [join] using ih
    · cases hsp : split rest with
      | nil => exact absurd hsp hne
      | cons piece pieces =>
        have hstep : split (c :: rest) = (c :: piece) :: pieces := by
          simp [split, if_neg h, hsp]
        rw [hstep]
        rw [hsp] at ih
        cases pieces with
        | nil => simpa [join] using ih
        | cons p ps => simpa [join] using ih

end Rust

/-- Embedding of Rust `ToString`: the capability of a value to produce its
canonical display text. -/
class RustToString (α : Type) where
  to_string : α → List Char

/-- `String::to_string` is the identity on the text. -/
instance : RustToString (List Char) := ⟨id⟩

/-- Embedding of the `Display`-derived `ToString` for unsigned integers:
decimal representation. -/
instance : RustToString Nat := ⟨fun n => (Nat.repr n).toList⟩

/-- Embedding of `struct Cell` from `src/cell.rs`: a list of content lines,
optional delimiter, optional alignment, optional foreground and background
colors, and an ordered attribute list. -/
structure Cell : Type where
  content : List (List Char)
  delimiter : Option Char
  alignment : Option CellAlignment
  fg : Option Color
  bg : Option Color
  attributes : List Attribute
  deriving DecidableEq, Repr

namespace Cell

/-- Embedding of `Cell::new`: convert the value to text, split it on the
newline character, and leave every style field unset. -/
def new {α : Type} [RustToString α] (content : α) : Cell :=
  { content := Rust.split (RustToString.to_string content)
    delimiter := none
    alignment := none
    fg := none
    bg := none
    attributes := [] }

/-- Embedding of `Cell::get_content`: join the content lines with the
newline character. -/
def get_content (c : Cell) : List Char :=
  Rust.join c.content

/-- Embedding of `Cell::set_delimiter`. -/
def set_delimiter (c : Cell) (delimiter : Char) : Cell :=
  { c with delimiter := some delimiter }

/-- Embedding of `Cell::set_alignment`. -/
def set_alignment (c : Cell) (alignment : CellAlignment) : Cell :=
  { c with alignment := some alignment }

/-- Embedding of `Cell::fg` (named `set_fg` here because the structure
field is already called `fg`). -/
def set_fg (c : Cell) (color : Color) : Cell :=
  { c with fg := some color }

/-- Embedding of `Cell::bg` (named `set_bg` here because the structure
field is already called `bg`). -/
def set_bg (c : Cell) (color : Color) : Cell :=
  { c with bg := some color }

/-- Embedding of `Cell::add_attribute`: push one attribute at the end. -/
def add_attribute (c : Cell) (attr : Attribute) : Cell :=
  { c with attributes := c.attributes ++ [attr] }

/-- Embedding of `Cell::add_attributes`: append a list of attributes. -/
def add_attributes (c : Cell) (attrs : List Attribute) : Cell :=
  { c with attributes := c.attributes ++ attrs }

end Cell

/-- Embedding of `impl<T: ToString> From<T> for Cell`: delegate to
`Cell::new`. -/
def Cell.from {α : Type} [RustToString α] (content : α) : Cell :=
  Cell.new content

/-- Embedding of the `ToCell` trait: the capability of a value to convert
itself into a `Cell`. -/
class ToCell (α : Type) where
  to_cell : α → Cell

/-- Embedding of `impl<T: ToString> ToCell for T`: the generic blanket
conversion for displayable values, delegating to `Cell::new`. -/
instance instToCellOfRustToString {α : Type} [RustToString α] : ToCell α :=
  ⟨fun v => Cell.new (RustToString.to_string v)⟩

/-- Embedding of `impl ToCell for Cell`: an already-built cell passes
through unchanged.  In Rust this impl is selected for `Cell` values (a
`Cell` is not `ToString`, so only this impl applies); in the model it is
the higher-priority instance for `Cell`. -/
instance instToCellCell : ToCell Cell :=
  ⟨fun c => c⟩

/-- Embedding of `impl<T: IntoIterator> ToCells for T`: map every element
of the collection through `to_cell`, preserving order. -/
def to_cells {α : Type} [ToCell α] (items : List α) : List Cell :=
  items.map ToCell.to_cell

/-- `split` yields one piece per newline character plus one. -/
theorem Rust.split_length (s : List Char) :
    (Rust.split s).length = s.count '\n' + 1 := by
  induction s with
  | nil => rfl
  | cons c rest ih =>
    by_cases h : c = '\n'
    · subst h
      have hstep : Rust.split ('\n' :: rest) = [] :: Rust.split rest := by
        simp [Rust.split]
      simp [hstep, List.count_cons, ih]
    · cases hsp : Rust.split rest with
      | nil => exact absurd hsp (Rust.split_ne_nil rest)
      | cons piece pieces =>
        have hstep : Rust.split (c :: rest) = (c :: piece) :: pieces := by
          simp [Rust.split, if_neg h, hsp]
        rw [hsp] at ih
        simp only [hstep, List.length_cons, List.count_cons, beq_iff_eq,
          if_neg h]
        simp only [List.length_cons] at ih
        omega

/-- No piece produced by `split` contains a newline character. -/
theorem Rust.split_no_newline (s : List Char) :
    ∀ piece ∈ Rust.split s, '\n' ∉ piece := by
  induction s with
  | nil =>
    intro piece hp
    simp [Rust.split] at hp
    subst hp
    simp
  | cons c rest ih =>
    by_cases h : c = '\n'
    · subst h
      intro piece hp
      have hstep : Rust.split ('\n' :: rest) = [] :: Rust.split rest := by
        simp [Rust.split]
      rw [hstep] at hp
      rcases List.mem_cons.mp hp with h1 | h2
      · subst h1; simp
      · exact ih piece h2
    · cases hsp : Rust.split rest with
      | nil => exact absurd hsp (Rust.split_ne_nil rest)
      | cons piece pieces =>
        intro p hp
        have hstep : Rust.split (c :: rest) = (c :: piece) :: pieces := by
          simp [Rust.split, if_neg h, hsp]
        rw [hstep] at hp
        rcases List.mem_cons.mp hp with h1 | h2
        · subst h1
          intro hmem
          rcases List.mem_cons.mp hmem with h3 | h4
          · exact h h3.symm
          · exact ih piece (by rw [hsp]; exact List.mem_cons_self _ _) h4
        · exact ih p (by rw [hsp]; exact List.mem_cons.mpr (Or.inr h2))

/-- `add_attributes` is the same as folding `add_attribute` over the list. -/
theorem add_attributes_eq_foldl (l : List Attribute) (c : Cell) :
    c.add_attributes l = l.foldl Cell.add_attribute c := by
  induction l generalizing c with
  | nil => simp [Cell.add_attributes]
  | cons a t ih =>
    rw [List.foldl_cons, ← ih]
    simp [Cell.add_attributes, Cell.add_attribute]

/-- C1: Round-trip law: for every string `s`, constructing a cell with
`Cell::new(s)` and then calling `get_content()` returns exactly `s`,
including the empty string, strings with consecutive newlines, and strings
with leading or trailing newlines, with no trailing-newline
normalization. -/
theorem round_trip (s : List Char) : (Cell.new s).get_content = s := by
  simpa [Cell.new, Cell.get_content, RustToString.to_string]
    using Rust.join_split s

/-- C2: Identity law for conversion: for every already-constructed `Cell`
`c` (regardless of content, delimiter, alignment, colors, or attributes),
`to_cell(c)` returns `c` itself unchanged — no re-splitting of content and
no resetting of any style field; the `Cell`-specific conversion is the one
selected for a `Cell` value. -/
theorem to_cell_identity (c : Cell) : ToCell.to_cell c = c := rfl

/-- C3: Order preservation of collection conversion: converting a
collection yields a sequence of the same length whose element at every
position `i` is `to_cell` of the input element at position `i`, and the
empty collection yields the empty sequence. -/
theorem to_cells_order_preservation {α : Type} [ToCell α] (items : List α) :
    (to_cells items).length = items.length ∧
    (∀ i : Nat, (to_cells items).get? i = (items.get? i).map ToCell.to_cell) ∧
    to_cells ([] : List α) = [] := by
  refine ⟨List.length_map _ _, fun i => ?_, rfl⟩
  simp [to_cells]

/-- C4: Content invariant of construction: `Cell::new` always produces a
non-empty content sequence whose number of lines is exactly the number of
newline characters of the input text plus one, and joining the lines back
with newlines recovers the input text exactly (no merging, trimming,
adding or removing of lines). -/
theorem new_content_invariant {α : Type} [RustToString α] (v : α) :
    (Cell.new v).content ≠ [] ∧
    (Cell.new v).content.length =
      (RustToString.to_string v).count '\n' + 1 ∧
    Rust.join (Cell.new v).content = RustToString.to_string v := by
  refine ⟨Rust.split_ne_nil _, ?_, Rust.join_split _⟩
  simpa [Cell.new] using Rust.split_length (RustToString.to_string v)

/-- C5: Mutator overwrite semantics (last write wins): for each of
`set_alignment`, `set_delimiter`, `fg` and `bg`, setting value `A` and
then value `B` leaves the field holding exactly `B`. -/
theorem mutator_overwrite (c : Cell) (a b : CellAlignment) (d e : Char)
    (x y : Color) :
    ((c.set_alignment a).set_alignment b).alignment = some b ∧
    ((c.set_delimiter d).set_delimiter e).delimiter = some e ∧
    ((c.set_fg x).set_fg y).fg = some y ∧
    ((c.set_bg x).set_bg y).bg = some y :=
  ⟨rfl, rfl, rfl, rfl⟩

/-- C6: Attribute accumulation: `add_attribute` appends one attribute at
the end without deduplication, `add_attributes` appends a list in order
and equals folding `add_attribute` over the list; in particular
`add_attribute X` followed by `add_attributes [Y, Z]` appends
`[X, Y, Z]`. -/
theorem attribute_accumulation (c : Cell) (x y z : Attribute)
    (l : List Attribute) :
    (c.add_attribute x).attributes = c.attributes ++ [x] ∧
    ((c.add_attribute x).add_attribute x).attributes
      = c.attributes ++ [x, x] ∧
    (c.add_attributes l).attributes = c.attributes ++ l ∧
    c.add_attributes l = l.foldl Cell.add_attribute c ∧
    ((c.add_attribute x).add_attributes [y, z]).attributes
      = c.attributes ++ [x, y, z] := by
  refine ⟨rfl, by simp [Cell.add_attribute], rfl,
    add_attributes_eq_foldl l c, ?_⟩
  simp [Cell.add_attribute, Cell.add_attributes]

/-- C7: Frame property of mutators: each mutator changes only its own
field and leaves every other field unchanged; in particular the scenario
of building a cell, setting delimiter `'-'`, alignment Center and adding
attributes Bold and Italic yields exactly those settings with unchanged
content and both colors still unset. -/
theorem mutator_frame (c : Cell) (d : Char) (a : CellAlignment)
    (col : Color) (t : Attribute) (l : List Attribute) :
    ((c.set_delimiter d).content = c.content ∧
     (c.set_delimiter d).alignment = c.alignment ∧
     (c.set_delimiter d).fg = c.fg ∧
     (c.set_delimiter d).bg = c.bg ∧
     (c.set_delimiter d).attributes = c.attributes) ∧
    ((c.set_alignment a).content = c.content ∧
     (c.set_alignment a).delimiter = c.delimiter ∧
     (c.set_alignment a).fg = c.fg ∧
     (c.set_alignment a).bg = c.bg ∧
     (c.set_alignment a).attributes = c.attributes) ∧
    ((c.set_fg col).content = c.content ∧
     (c.set_fg col).delimiter = c.delimiter ∧
     (c.set_fg col).alignment = c.alignment ∧
     (c.set_fg col).bg = c.bg ∧
     (c.set_fg col).attributes = c.attributes) ∧
    ((c.set_bg col).content = c.content ∧
     (c.set_bg col).delimiter = c.delimiter ∧
     (c.set_bg col).alignment = c.alignment ∧
     (c.set_bg col).fg = c.fg ∧
     (c.set_bg col).attributes = c.attributes) ∧
    ((c.add_attribute t).content = c.content ∧
     (c.add_attribute t).delimiter = c.delimiter ∧
     (c.add_attribute t).alignment = c.alignment ∧
     (c.add_attribute t).fg = c.fg ∧
     (c.add_attribute t).bg = c.bg) ∧
    ((c.add_attributes l).content = c.content ∧
     (c.add_attributes l).delimiter = c.delimiter ∧
     (c.add_attributes l).alignment = c.alignment ∧
     (c.add_attributes l).fg = c.fg ∧
     (c.add_attributes l).bg = c.bg) ∧
    (let scenario :=
      (((Cell.new "hello".toList).set_delimiter '-').set_alignment
          CellAlignment.Center).add_attributes
        [Attribute.Bold, Attribute.Italic]
     scenario.delimiter = some '-' ∧
     scenario.alignment = some CellAlignment.Center ∧
     scenario.attributes = [Attribute.Bold, Attribute.Italic] ∧
     scenario.content = (Cell.new "hello".toList).content ∧
     scenario.fg = none ∧
     scenario.bg = none) :=
  ⟨⟨rfl, rfl, rfl, rfl, rfl⟩, ⟨rfl, rfl, rfl, rfl, rfl⟩,
   ⟨rfl, rfl, rfl, rfl, rfl⟩, ⟨rfl, rfl, rfl, rfl, rfl⟩,
   ⟨rfl, rfl, rfl, rfl, rfl⟩, ⟨rfl, rfl, rfl, rfl, rfl⟩,
   ⟨rfl, rfl, rfl, rfl, rfl, rfl⟩⟩

/-- C8: Totality: construction and every mutator are total functions —
for every input they succeed and produce the expected result, with no
error condition; in particular `set_delimiter` accepts any character
without validation, including whitespace or the newline character. -/
theorem totality {α : Type} [RustToString α] (v : α) (c : Cell) (d : Char)
    (a : CellAlignment) (col : Color) (t : Attribute)
    (l : List Attribute) :
    (Cell.new v).content ≠ [] ∧
    (c.set_delimiter d).delimiter = some d ∧
    (c.set_delimiter ' ').delimiter = some ' ' ∧
    (c.set_delimiter '\n').delimiter = some '\n' ∧
    (c.set_alignment a).alignment = some a ∧
    (c.set_fg col).fg = some col ∧
    (c.set_bg col).bg = some col ∧
    (c.add_attribute t).attributes = c.attributes ++ [t] ∧
    (c.add_attributes l).attributes = c.attributes ++ l :=
  ⟨Rust.split_ne_nil _, rfl, rfl, rfl, rfl, rfl, rfl, rfl, rfl⟩

/-- C9: Generic conversion delegates to construction: for every
displayable value, both the blanket `to_cell` conversion and the
`From`-based conversion produce exactly `Cell::new` of the value — a cell
with split content and all style fields fresh; converting the integer
collection `[1, 2, 3]` yields three cells with contents `"1"`, `"2"`,
`"3"` in that order. -/
theorem to_cell_delegates_to_new {α : Type} [RustToString α] (v : α) :
    @ToCell.to_cell α instToCellOfRustToString v = Cell.new v ∧
    Cell.from v = Cell.new v ∧
    (Cell.new v).delimiter = none ∧
    (Cell.new v).alignment = none ∧
    (Cell.new v).fg = none ∧
    (Cell.new v).bg = none ∧
    (Cell.new v).attributes = [] ∧
    (to_cells [1, 2, 3]).map Cell.get_content = [['1'], ['2'], ['3']] :=
  ⟨rfl, rfl, rfl, rfl, rfl, rfl, rfl, by decide⟩

/-- C10: Implicit invariant: no line of a constructed cell's content
contains a newline character, and every mutator and the identity
conversion preserve the content field (hence both this property and
non-emptiness of the content). -/
theorem content_newline_free_invariant {α : Type} [RustToString α] (v : α)
    (c : Cell) (d : Char) (a : CellAlignment) (col : Color)
    (t : Attribute) (l : List Attribute) :
    (∀ piece ∈ (Cell.new v).content, '\n' ∉ piece) ∧
    (Cell.new v).content ≠ [] ∧
    (c.set_delimiter d).content = c.content ∧
    (c.set_alignment a).content = c.content ∧
    (c.set_fg col).content = c.content ∧
    (c.set_bg col).content = c.content ∧
    (c.add_attribute t).content = c.content ∧
    (c.add_attributes l).content = c.content ∧
    (ToCell.to_cell c).content = c.content :=
  ⟨Rust.split_no_newline _, Rust.split_ne_nil _,
   rfl, rfl, rfl, rfl, rfl, rfl, rfl⟩

end ComfyTable
